import Mathlib

/-!
Verification of the caryatid Vagrant-catalog core: a shallow embedding of the
version comparator, the catalog data model, the query/delete engine from
`pkg/caryatid/vagrant_catalog.go` and `pkg/caryatid/backend.go`, and the
`BackendManager` orchestration from `pkg/caryatid/backend_manager.go`,
together with theorems settling the specification claims about them.

Go strings are embedded as `String` (operated on through their character
lists), Go `int` as `Int` with the 64-bit range enforced at the
`strconv.ParseInt` boundary, Go's multi-value `(result, err)` returns as
`Except`/`Option String` results, and Go's `regexp` package as an abstract
compilation function (`RegexEngine`).
-/

deriving instance DecidableEq for Except

namespace Caryatid

/-- The four comparator tags of `VersionComparator` in `comparable_version.go`. -/
inductive VersionComparator where
  | equals
  | equalsPrereleaseMismatch
  | lessThan
  | greaterThan
deriving DecidableEq, Repr

/-- A parsed semantic version, embedding `ComparableVersion`: the list of
integer components and the prerelease tag. -/
structure ComparableVersion where
  version : List Int
  prerelease : String
deriving DecidableEq, Repr

/-- Models Go `strings.Split(s, sep)` for a one-character separator `sep`:
`strings.Split("", "-") = [""]` and `strings.Split("a-b", "-") = ["a", "b"]`. -/
def splitOnChar (sep : Char) : List Char → List (List Char)
  | [] => [[]]
  | c :: rest =>
    match splitOnChar sep rest with
    | [] => [[]]
    | h :: t => if c = sep then [] :: h :: t else (c :: h) :: t

/-- Whether the character `target` occurs in `cs`; models Go
`strings.Contains` for a one-character substring. -/
def containsChar (target : Char) (cs : List Char) : Bool :=
  cs.any (fun c => c = target)

/-- The value denoted by a list of decimal digits, most significant first. -/
def digitsVal (cs : List Char) : Nat :=
  cs.foldl (fun acc c => acc * 10 + (c.toNat - 48)) 0

/-- Models Go `strconv.ParseInt(s, 10, 0)` on a 64-bit platform: an optional
single leading sign followed by one or more decimal digits, with the value
required to fit in a signed 64-bit integer. `none` models a non-nil error
(syntax error or range error). -/
def parseGoInt (cs : List Char) : Option Int :=
  let (neg, digits) :=
    match cs with
    | '+' :: rest => (false, rest)
    | '-' :: rest => (true, rest)
    | _ => (false, cs)
  if digits.isEmpty then none
  else if digits.all Char.isDigit then
    if neg then
      if digitsVal digits ≤ 9223372036854775808 then some (-(digitsVal digits : Int)) else none
    else
      if digitsVal digits ≤ 9223372036854775807 then some ((digitsVal digits : Int)) else none
  else none

/-- The component loop of `NewComparableVersion`: parse each dot-component in
order, failing at the first component that does not parse. -/
def parseComponentList : List (List Char) → Except String (List Int)
  | [] => .ok []
  | comp :: rest =>
    match parseGoInt comp with
    | none => .error ("Could not decode component " ++ String.mk comp)
    | some n =>
      match parseComponentList rest with
      | .error e => .error e
      | .ok ns => .ok (n :: ns)

/-- Embeds `NewComparableVersion` from `comparable_version.go`: if the string
contains a dash, split on dashes (more than one dash is an error) and take
the part after the dash as the prerelease tag; then split the remaining part
on dots and parse every component as an integer. -/
def NewComparableVersion (semver : String) : Except String ComparableVersion :=
  let cs := semver.data
  let parts :=
    if containsChar '-' cs then
      let splitSemver := splitOnChar '-' cs
      if splitSemver.length > 2 then none
      else some (splitSemver.headD [], String.mk ((splitSemver.drop 1).headD []))
    else some (cs, "")
  match parts with
  | none => .error ("Too many dash (-) characters in semver " ++ semver)
  | some (verStr, prerelease) =>
    match parseComponentList (splitOnChar '.' verStr) with
    | .error e => .error e
    | .ok vs => .ok ⟨vs, prerelease⟩

/-- Embeds `NewVersionComparator` from `comparable_version.go`. -/
def NewVersionComparator (compstring : String) : Except String (List VersionComparator) :=
  match compstring with
  | "<" => .ok [.lessThan]
  | ">" => .ok [.greaterThan]
  | "=" => .ok [.equals]
  | "<=" => .ok [.equals, .equalsPrereleaseMismatch, .lessThan]
  | ">=" => .ok [.equals, .equalsPrereleaseMismatch, .greaterThan]
  | _ => .error ("Invalid comparator string " ++ compstring)

/-- Embeds `VersionComparatorList.Contains`: true when every element of
`list2` occurs somewhere in `list1`. -/
def comparatorListContains (list1 list2 : List VersionComparator) : Bool :=
  list2.all (fun cv2 => list1.any (fun cv1 => cv1 = cv2))

/-- Worker for `CompareIntArray`, carrying a fuel argument that makes the
recursion structural (so that the function computes definitionally); the
fuel is irrelevant whenever it is at least the sum of the two lengths, which
the wrapper below guarantees. The cases mirror `CompareIntArray` in
`comparable_version.go`: recursive comparison of two integer arrays,
appending a zero to the array that runs out first. -/
def compareIntArrayFuel : Nat → List Int → List Int → VersionComparator
  | _, [], [] => .equals
  | _, _ :: _, [] => .greaterThan
  | _, [], _ :: _ => .lessThan
  | fuel + 1, a :: restA, b :: restB =>
    if a = b then
      match restA, restB with
      | [], [] => .equals
      | [], b2 :: restB2 => compareIntArrayFuel fuel [0] (b2 :: restB2)
      | a2 :: restA2, [] => compareIntArrayFuel fuel (a2 :: restA2) [0]
      | a2 :: restA2, b2 :: restB2 => compareIntArrayFuel fuel (a2 :: restA2) (b2 :: restB2)
    else if a > b then .greaterThan
    else .lessThan
  | 0, _ :: _, _ :: _ => .equals

/-- Embeds `CompareIntArray` from `comparable_version.go`; the fuel given to
the worker bounds the recursion depth and is never exhausted. -/
def CompareIntArray (va1 va2 : List Int) : VersionComparator :=
  compareIntArrayFuel (va1.length + va2.length) va1 va2

/-- Embeds `ComparableVersion.Compare`: the integer-array comparison,
downgraded to `equalsPrereleaseMismatch` when the arrays are equal but the
prerelease tags differ. -/
def ComparableVersion.Compare (cv1 cv2 : ComparableVersion) : VersionComparator :=
  let vResult := CompareIntArray cv1.version cv2.version
  if vResult = .equals ∧ cv1.prerelease ≠ cv2.prerelease then
    .equalsPrereleaseMismatch
  else vResult

/-- Embeds `Provider` from `vagrant_catalog.go`: one box build for one
platform, with its URL and checksum. -/
structure Provider where
  name : String
  url : String
  checksumType : String
  checksum : String
deriving DecidableEq, Repr

/-- Embeds `Version` from `vagrant_catalog.go`: the literal version string
and its providers. -/
structure Version where
  version : String
  providers : List Provider
deriving DecidableEq, Repr

/-- Embeds `Catalog` from `vagrant_catalog.go`. -/
structure Catalog where
  name : String
  description : String
  versions : List Version
deriving DecidableEq, Repr

/-- The zero value of the `Catalog` struct, as produced by Go declarations
such as `var catalog Catalog`. -/
def emptyCatalog : Catalog := ⟨"", "", []⟩

/-- Embeds `Provider.Equals` on values (the Go receiver and argument are
non-nil pointers here): plain struct equality. -/
def Provider.Equals (p1 p2 : Provider) : Bool :=
  p1 = p2

/-- Embeds `Version.Equals`: equal version strings, equal provider counts,
and pairwise equal providers. -/
def Version.Equals (v1 v2 : Version) : Bool :=
  if v1.version ≠ v2.version ∨ v1.providers.length ≠ v2.providers.length then false
  else (v1.providers.zip v2.providers).all (fun pq => pq.1.Equals pq.2)

/-- Embeds `Catalog.Equals`: equal names, descriptions, version counts, and
pairwise equal versions. -/
def Catalog.Equals (c1 c2 : Catalog) : Bool :=
  if c1.name ≠ c2.name ∨ c1.description ≠ c2.description ∨
      c1.versions.length ≠ c2.versions.length then false
  else (c1.versions.zip c2.versions).all (fun vw => vw.1.Equals vw.2)

/-- Models Go `strings.LastIndex(s, "/")`: the index of the last slash in
`cs`, or `none` when there is no slash (Go returns -1). -/
def lastSlashIdx : List Char → Option Nat
  | [] => none
  | c :: rest =>
    match lastSlashIdx rest with
    | some i => some (i + 1)
    | none => if c = '/' then some 0 else none

/-- Embeds `BoxUriFromCatalogUri` from `vagrant_catalog.go`: replace the part
of the catalog URI after its last slash with
`<name>/<name>_<version>_<provider>.box`. -/
def BoxUriFromCatalogUri (catalogUri nameStr versionStr providerStr : String) : Except String String :=
  match lastSlashIdx catalogUri.data with
  | none => .error ("Invalid URI: " ++ catalogUri)
  | some lastIdx =>
    let catalogParentUri := String.mk (catalogUri.data.take lastIdx)
    .ok (catalogParentUri ++ "/" ++ nameStr ++ "/" ++ nameStr ++ "_" ++ versionStr ++ "_" ++
      providerStr ++ ".box")

/-- The inner provider loop of `Catalog.AddBox`: overwrite the Url,
ChecksumType and Checksum of the first provider named `providerStr`, or
append `newProvider` when none matches. -/
def updateProviderList (providerStr : String) (newProvider : Provider) : List Provider → List Provider
  | [] => [newProvider]
  | p :: rest =>
    if p.name = providerStr then
      { p with
        url := newProvider.url
        checksumType := newProvider.checksumType
        checksum := newProvider.checksum } :: rest
    else p :: updateProviderList providerStr newProvider rest

/-- The outer version loop of `Catalog.AddBox`: update the first version
entry matching `versionStr` (updating or appending the provider inside it),
or append `newVersion` when no version entry matches. -/
def updateVersionList (versionStr providerStr : String) (newProvider : Provider) (newVersion : Version) : List Version → List Version
  | [] => [newVersion]
  | v :: rest =>
    if v.version = versionStr then
      { v with providers := updateProviderList providerStr newProvider v.providers } :: rest
    else v :: updateVersionList versionStr providerStr newProvider newVersion rest

/-- Embeds `Catalog.AddBox` from `vagrant_catalog.go`, returning the catalog
state after the call (the Go receiver is mutated in place) together with the
error result. Note: the Go source also assigns an error when the catalog
name cannot be determined, but that assignment is dead code — the subsequent
`boxUri, err := BoxUriFromCatalogUri(...)` overwrites `err` before any
return, so no such error is ever observable. -/
def Catalog.AddBox (c : Catalog) (catalogUri nameStr description versionStr providerStr checksumType checksum : String) : Catalog × Option String :=
  if c.name ≠ "" ∧ nameStr ≠ "" ∧ c.name ≠ nameStr then
    (c, some ("Catalog.AddBox(): Catalog name " ++ c.name ++ " does not match input name " ++ nameStr))
  else
    let c1 := if nameStr ≠ "" ∧ c.name = "" then { c with name := nameStr } else c
    let c2 := { c1 with description := description }
    match BoxUriFromCatalogUri catalogUri nameStr versionStr providerStr with
    | .error e => (c2, some e)
    | .ok boxUri =>
      let newProvider : Provider := ⟨providerStr, boxUri, checksumType, checksum⟩
      let newVersion : Version := ⟨versionStr, [newProvider]⟩
      ({ c2 with versions := updateVersionList versionStr providerStr newProvider newVersion c2.versions }, none)

/-- Whether the character list starts with the given prefix characters;
models Go `strings.HasPrefix`. -/
def charsStartWith : List Char → List Char → Bool
  | _, [] => true
  | [], _ :: _ => false
  | c :: cs, d :: ds => c = d && charsStartWith cs ds

/-- The body of the qualifier loop in `parseVersionQueryString` once the
qualifier string `pfx` has matched: build the comparator list for `pfx` and
parse the rest of the string as a version. -/
def parseWithQualifier (pfx semver : String) : Except String (ComparableVersion × List VersionComparator) :=
  match NewVersionComparator pfx with
  | .error e => .error e
  | .ok qualifier =>
    match NewComparableVersion (String.mk (semver.data.drop pfx.data.length)) with
    | .error e => .error e
    | .ok version => .ok (version, qualifier)

/-- Embeds `parseVersionQueryString` from `vagrant_catalog.go`: the empty
string short-circuits to zero values; otherwise the loop over
`">=", "<=", ">", "<", "="` takes the first matching qualifier (two-character
qualifiers first), and with no qualifier the whole string is parsed as a
version with the `[equals, equalsPrereleaseMismatch]` comparator list. -/
def parseVersionQueryString (semver : String) : Except String (ComparableVersion × List VersionComparator) :=
  if semver.data.length = 0 then .ok (⟨[], ""⟩, [])
  else if charsStartWith semver.data (">=").data then parseWithQualifier ">=" semver
  else if charsStartWith semver.data ("<=").data then parseWithQualifier "<=" semver
  else if charsStartWith semver.data (">").data then parseWithQualifier ">" semver
  else if charsStartWith semver.data ("<").data then parseWithQualifier "<" semver
  else if charsStartWith semver.data ("=").data then parseWithQualifier "=" semver
  else
    match NewComparableVersion semver with
    | .error e => .error e
    | .ok version => .ok (version, [.equals, .equalsPrereleaseMismatch])

/-- Embeds `CatalogQueryParams`. -/
structure CatalogQueryParams where
  version : String
  provider : String
deriving DecidableEq, Repr

/-- The version loop of `Catalog.QueryCatalogVersions`: keep the version
entries whose comparison against the query version lands in the accepted
comparator list, failing on the first catalog version that does not parse. -/
def filterCatalogVersions (queryVers : ComparableVersion) (queryQual : List VersionComparator) : List Version → Except String (List Version)
  | [] => .ok []
  | v :: rest =>
    match NewComparableVersion v.version with
    | .error e => .error e
    | .ok cVers =>
      match filterCatalogVersions queryVers queryQual rest with
      | .error e => .error e
      | .ok tail =>
        .ok (if comparatorListContains queryQual [cVers.Compare queryVers] then v :: tail else tail)

/-- Embeds `Catalog.QueryCatalogVersions` from `vagrant_catalog.go`: parse
the query; an empty parsed query version returns the whole catalog,
otherwise keep the matching version entries. -/
def Catalog.QueryCatalogVersions (catalog : Catalog) (versionquery : String) : Except String Catalog :=
  match parseVersionQueryString versionquery with
  | .error e => .error e
  | .ok (queryVers, queryQual) =>
    if queryVers.version.length = 0 then .ok catalog
    else
      match filterCatalogVersions queryVers queryQual catalog.versions with
      | .error e => .error e
      | .ok vs => .ok ⟨catalog.name, catalog.description, vs⟩

/-- Abstract model of Go's `regexp` package: `R pat = some m` when `pat`
compiles, `m` being the compiled regex's (unanchored) `Match` function on
strings; `R pat = none` when compilation fails, in which case
`regexp.MustCompile` panics. Go's engine guarantees in particular that the
empty pattern compiles and matches every string. -/
abbrev RegexEngine := String → Option (String → Bool)

/-- The per-version body of `Catalog.QueryCatalogProviders`: keep the
providers whose name matches, and drop the version entirely when no
provider is left. -/
def providerFilterFn (m : String → Bool) (version : Version) : Option Version :=
  let newProviders := version.providers.filter (fun p => m p.name)
  if newProviders.length > 0 then some ⟨version.version, newProviders⟩ else none

/-- Embeds `Catalog.QueryCatalogProviders` from `vagrant_catalog.go`,
parameterized by the regex engine. The outer `none` models the
`regexp.MustCompile` panic on a pattern that does not compile; the
function's declared error result is the inner second component, which the
source never assigns. -/
def Catalog.QueryCatalogProviders (R : RegexEngine) (catalog : Catalog) (providerquery : String) : Option (Catalog × Option String) :=
  match R providerquery with
  | none => none
  | some m =>
    some (⟨catalog.name, catalog.description, catalog.versions.filterMap (providerFilterFn m)⟩, none)

/-- Embeds `Catalog.QueryCatalog` from `vagrant_catalog.go`: filter by
version query, then filter the result by provider query, then restore the
original name and description. -/
def Catalog.QueryCatalog (R : RegexEngine) (catalog : Catalog) (params : CatalogQueryParams) : Option (Catalog × Option String) :=
  match catalog.QueryCatalogVersions params.version with
  | .error e => some (emptyCatalog, some e)
  | .ok vResult =>
    match vResult.QueryCatalogProviders R params.provider with
    | none => none
    | some (pResult, _) => some (⟨catalog.name, catalog.description, pResult.versions⟩, none)

/-- Embeds `BoxReference` from `vagrant_catalog.go`. -/
structure BoxReference where
  version : String
  providerName : String
  uri : String
deriving DecidableEq, Repr

/-- Embeds `BoxReference.Equals`: only the Version and ProviderName fields
are compared. -/
def BoxReference.Equals (br1 br2 : BoxReference) : Bool :=
  br1.version = br2.version && br1.providerName = br2.providerName

/-- Embeds `BoxReferenceList.Contains`. -/
def boxReferenceListContains (list : List BoxReference) (br : BoxReference) : Bool :=
  list.any (fun listItem => listItem.Equals br)

/-- Embeds `Catalog.BoxReferences`: one reference per provider of every
version, in catalog order. -/
def Catalog.BoxReferences (catalog : Catalog) : List BoxReference :=
  catalog.versions.flatMap (fun v => v.providers.map (fun p => ⟨v.version, p.name, p.url⟩))

/-- The per-version body of `Catalog.DeleteReferences`: keep the providers
whose (version, provider-name) key is not in the reference list (the `Uri`
field of the probe is the zero value and is ignored by
`BoxReference.Equals`), dropping the version when no provider survives. -/
def deleteReferencesFn (references : List BoxReference) (v : Version) : Option Version :=
  let newProviders :=
    v.providers.filter (fun p => !(boxReferenceListContains references ⟨v.version, p.name, ""⟩))
  if newProviders.length > 0 then some ⟨v.version, newProviders⟩ else none

/-- Embeds `Catalog.DeleteReferences` from `vagrant_catalog.go`. -/
def Catalog.DeleteReferences (catalog : Catalog) (references : List BoxReference) : Catalog :=
  ⟨catalog.name, catalog.description, catalog.versions.filterMap (deleteReferencesFn references)⟩

/-- Embeds `Catalog.DeleteQuery` from `vagrant_catalog.go`: query, collect
the matched box references, and delete them from the receiver. -/
def Catalog.DeleteQuery (R : RegexEngine) (catalog : Catalog) (param : CatalogQueryParams) : Option (Catalog × Option String) :=
  match catalog.QueryCatalog R param with
  | none => none
  | some (_, some e) => some (emptyCatalog, some e)
  | some (deleteCatalog, none) =>
    some (catalog.DeleteReferences deleteCatalog.BoxReferences, none)

/-- The storage operations of the `CaryatidBackend` interface that
`BackendManager.AddBox` can perform, recorded as a trace. -/
inductive BackendOp where
  | getCatalogBytes
  | setCatalogBytes
  | copyBoxFile
deriving DecidableEq, Repr

/-- Abstract model of a `BackendManager`: its catalog URI together with the
outcomes of the backend's storage operations and of the `encoding/json`
codec. `getCatalogBytesResult` is what `Backend.GetCatalogBytes` returns;
`unmarshalResult bytes` is the catalog value and error that
`json.Unmarshal` produces from `bytes` (the value may be partially filled
on error); `marshalResult` models `json.MarshalIndent`;
`setCatalogBytesResult` and `copyBoxFileResult` are the errors returned by
`Backend.SetCatalogBytes` and `Backend.CopyBoxFile`. -/
structure BackendModel where
  catalogUri : String
  getCatalogBytesResult : Except String String
  unmarshalResult : String → Catalog × Option String
  marshalResult : Catalog → Except String String
  setCatalogBytesResult : String → Option String
  copyBoxFileResult : String → String → String → String → Option String

/-- Embeds `BackendManager.GetCatalog` from `backend_manager.go`: fetch the
catalog bytes, then JSON-decode them; the catalog value is the zero value
when the fetch fails. Returns the trace of backend operations performed
alongside the Go results. -/
def BackendManager.GetCatalog (bm : BackendModel) : List BackendOp × Catalog × Option String :=
  match bm.getCatalogBytesResult with
  | .error e => ([.getCatalogBytes], emptyCatalog, some e)
  | .ok catalogBytes =>
    let (catalog, err) := bm.unmarshalResult catalogBytes
    ([.getCatalogBytes], catalog, err)

/-- Embeds `BackendManager.SaveCatalog` from `backend_manager.go`:
JSON-encode, then store the bytes. -/
def BackendManager.SaveCatalog (bm : BackendModel) (catalog : Catalog) : List BackendOp × Option String :=
  match bm.marshalResult catalog with
  | .error e => ([], some e)
  | .ok jsonData => ([.setCatalogBytes], bm.setCatalogBytesResult jsonData)

/-- Embeds `BackendManager.AddBox` from `backend_manager.go`, recording the
backend operations performed. The Go source assigns
`catalog, err := bm.GetCatalog()` and then immediately reassigns
`if _, err = NewComparableVersion(version); ...`, so the fetch error is
overwritten before the `if err != nil` test: only the version-validation
error is ever tested there, and a fetch failure with a valid version string
continues with the zero-value catalog. -/
def BackendManager.AddBox (bm : BackendModel) (localPath nameStr description versionStr providerStr checksumType checksum : String) : List BackendOp × Option String :=
  let (trace1, catalog, _fetchErr) := BackendManager.GetCatalog bm
  let err : Option String :=
    match NewComparableVersion versionStr with
    | .error e => some e
    | .ok _ => none
  match err with
  | some e => (trace1, some e)
  | none =>
    match catalog.AddBox bm.catalogUri nameStr description versionStr providerStr checksumType checksum with
    | (_, some e) => (trace1, some e)
    | (catalog2, none) =>
      let (trace2, saveErr) := BackendManager.SaveCatalog bm catalog2
      match saveErr with
      | some e => (trace1 ++ trace2, some e)
      | none =>
        match bm.copyBoxFileResult localPath nameStr versionStr providerStr with
        | some e => (trace1 ++ trace2 ++ [.copyBoxFile], some e)
        | none => (trace1 ++ trace2 ++ [.copyBoxFile], none)

/-- Spec-modelled (claim C2 wording): pad a vector with zeros on the right
up to length `n`. -/
def specPadToLength (n : Nat) (l : List Int) : List Int :=
  l ++ List.replicate (n - l.length) 0

/-- Spec-modelled (claim C2 wording): plain left-to-right lexicographic
comparison of two equal-length integer vectors. -/
def specLexCompare : List Int → List Int → VersionComparator
  | a :: restA, b :: restB =>
    if a > b then .greaterThan
    else if a < b then .lessThan
    else specLexCompare restA restB
  | _, _ => .equals

/-- Spec-modelled (claim C2 wording): compare component-by-component with
the missing tail of the shorter vector treated as zeros, and turn a numeric
`equals` with differing prerelease strings into `equalsPrereleaseMismatch`. -/
def specCompare (cv1 cv2 : ComparableVersion) : VersionComparator :=
  let n := max cv1.version.length cv2.version.length
  let r := specLexCompare (specPadToLength n cv1.version) (specPadToLength n cv2.version)
  if r = .equals ∧ cv1.prerelease ≠ cv2.prerelease then .equalsPrereleaseMismatch else r

/-- Spec-modelled (claim C1 wording): the accepted comparator set the claim
assigns to each query qualifier, chosen by trying the longest qualifiers
first in the order `>=`, `<=`, `>`, `<`, `=`. -/
def specC1ExpectedQualifiers (s : String) : List VersionComparator :=
  if charsStartWith s.data (">=").data then [.greaterThan, .equals, .equalsPrereleaseMismatch]
  else if charsStartWith s.data ("<=").data then [.lessThan, .equals, .equalsPrereleaseMismatch]
  else if charsStartWith s.data (">").data then [.greaterThan]
  else if charsStartWith s.data ("<").data then [.lessThan]
  else if charsStartWith s.data ("=").data then [.equals]
  else [.equals, .equalsPrereleaseMismatch]

/-- Spec-modelled (claim C1, as stated): whenever the query string parses,
its comparator list is exactly (as a set) the claimed mapping for its
qualifier, and — the claim's closing clause — an exact `=` query never
accepts `equalsPrereleaseMismatch` while every range or bare query does. -/
def specC1Claim (s : String) : Prop :=
  match parseVersionQueryString s with
  | .error _ => True
  | .ok (_, qual) =>
    (∀ c, c ∈ qual ↔ c ∈ specC1ExpectedQualifiers s) ∧
    (if charsStartWith s.data ("=").data then VersionComparator.equalsPrereleaseMismatch ∉ qual
     else VersionComparator.equalsPrereleaseMismatch ∈ qual)

/-- Spec-modelled (claim C3, as stated): when the version string does not
parse, `BackendManager.AddBox` returns the version error having performed no
backend storage operation at all. -/
def specC3Claim (bm : BackendModel) (localPath nameStr description versionStr providerStr checksumType checksum : String) : Prop :=
  ∀ e, NewComparableVersion versionStr = .error e →
    BackendManager.AddBox bm localPath nameStr description versionStr providerStr checksumType checksum = ([], some e)

/-- A concrete regex engine satisfying the documented guarantees of Go's
`regexp` package that the claims rely on: the empty pattern compiles and
matches everything, the lone `"("` does not compile, and other patterns
match by equality. -/
def witnessRegexEngine : RegexEngine := fun pat =>
  if pat = "(" then none
  else if pat = "" then some (fun _ => true)
  else some (fun s => pat = s)

/-- A backend model in which every operation succeeds and the stored catalog
is empty. -/
def plainBackend : BackendModel :=
  ⟨"file:///srv/vagrant/testbox.json",
   .ok "\x7b\x7d",
   fun _ => (emptyCatalog, none),
   fun _ => .ok "marshalled-bytes",
   fun _ => none,
   fun _ _ _ _ => none⟩

/-- A backend model whose catalog fetch fails while every other operation
succeeds. -/
def fetchFailBackend : BackendModel :=
  ⟨"file:///srv/vagrant/testbox.json",
   .error "GetCatalogBytes failed: connection refused",
   fun _ => (emptyCatalog, none),
   fun _ => .ok "marshalled-bytes",
   fun _ => none,
   fun _ _ _ _ => none⟩

/-- The four-version catalog of claim C6. -/
def c6Catalog : Catalog :=
  ⟨"examplebox", "a box for testing",
    [⟨"0.3.5", [⟨"virtualbox", "u1", "sha1", "cs1"⟩]⟩,
     ⟨"0.3.4", [⟨"virtualbox", "u2", "sha1", "cs2"⟩]⟩,
     ⟨"0.3.5-BETA", [⟨"virtualbox", "u3", "sha1", "cs3"⟩]⟩,
     ⟨"1.0.0", [⟨"virtualbox", "u4", "sha1", "cs4"⟩]⟩]⟩

/-- Spec-modelled (claim C1 as amended): for a query string that parses, the
comparator list is exactly (as a set) the claimed per-qualifier mapping, and
`equalsPrereleaseMismatch` is accepted exactly by the inclusive ranges
(`>=`, `<=`) and bare queries — not by `=` and not by the strict ranges
`>` and `<`. -/
def specC1AmendedClaim (s : String) : Prop :=
  match parseVersionQueryString s with
  | .error _ => True
  | .ok (_, qual) =>
    (∀ c, c ∈ qual ↔ c ∈ specC1ExpectedQualifiers s) ∧
    (VersionComparator.equalsPrereleaseMismatch ∈ qual ↔
      (charsStartWith s.data (">=").data ∨ charsStartWith s.data ("<=").data ∨
        (¬ charsStartWith s.data (">").data ∧ ¬ charsStartWith s.data ("<").data ∧
          ¬ charsStartWith s.data ("=").data)))

/-- Whether the first version entry matching `versionStr` — the entry that
`Catalog.AddBox` updates — already lists a provider named `providerStr`.
Under the catalog invariant of unique version strings this is just "the
(version, provider) pair already exists in the catalog". -/
def firstMatchHasProvider (versionStr providerStr : String) : List Version → Bool
  | [] => false
  | v :: rest =>
    if v.version = versionStr then v.providers.any (fun p => p.name = providerStr)
    else firstMatchHasProvider versionStr providerStr rest

/-- The per-version acceptance test of `QueryCatalogVersions`, as a Boolean
on the version string (used to characterize the loop as a filter; it is only
meaningful when the string parses). -/
def versionMatches (queryVers : ComparableVersion) (queryQual : List VersionComparator) (vstr : String) : Bool :=
  match NewComparableVersion vstr with
  | .ok cVers => comparatorListContains queryQual [cVers.Compare queryVers]
  | .error _ => false

/-! ## Theorems -/

/-- Claim C6: on the catalog with versions 0.3.5, 0.3.4, 0.3.5-BETA and
1.0.0, the query `<=0.3.5` returns exactly 0.3.5, 0.3.4 and 0.3.5-BETA (the
prerelease included because of the range qualifier), `=0.3.5` returns only
0.3.5, and `=0.3.6` returns an empty version list with no error. -/
theorem claim6_query_examples :
    c6Catalog.QueryCatalogVersions "<=0.3.5" =
      .ok ⟨"examplebox", "a box for testing",
        [⟨"0.3.5", [⟨"virtualbox", "u1", "sha1", "cs1"⟩]⟩,
         ⟨"0.3.4", [⟨"virtualbox", "u2", "sha1", "cs2"⟩]⟩,
         ⟨"0.3.5-BETA", [⟨"virtualbox", "u3", "sha1", "cs3"⟩]⟩]⟩ ∧
    c6Catalog.QueryCatalogVersions "=0.3.5" =
      .ok ⟨"examplebox", "a box for testing",
        [⟨"0.3.5", [⟨"virtualbox", "u1", "sha1", "cs1"⟩]⟩]⟩ ∧
    c6Catalog.QueryCatalogVersions "=0.3.6" =
      .ok ⟨"examplebox", "a box for testing", []⟩ :=
  ⟨rfl, rfl, rfl⟩

/-- Claim C10: provider queries are not total — when the pattern does not
compile (for example `"("`), `Catalog.QueryCatalogProviders` panics (the
`regexp.MustCompile` call, modeled by the outer `none`) instead of returning
through its declared error result, and that error result is never assigned
for any pattern that does return. -/
theorem claim10_provider_query_panics (R : RegexEngine) (c c2 : Catalog) (pat : String)
    (out : Catalog × Option String) (hR : R "(" = none)
    (h2 : Catalog.QueryCatalogProviders R c2 pat = some out) :
    Catalog.QueryCatalogProviders R c "(" = none ∧ out.2 = none := by
  constructor
  · simp [Catalog.QueryCatalogProviders, hR]
  · unfold Catalog.QueryCatalogProviders at h2
    cases hp : R pat with
    | none => rw [hp] at h2; cases h2
    | some m =>
      rw [hp] at h2
      simp only [Option.some.injEq] at h2
      rw [← h2]

/-- Witness for C10: the hypotheses hold at the concrete engine
`witnessRegexEngine`, the empty catalog, and the pattern `"x"`. -/
theorem claim10_witness :
    Catalog.QueryCatalogProviders witnessRegexEngine emptyCatalog "(" = none ∧
    (emptyCatalog, (none : Option String)).2 = none :=
  claim10_provider_query_panics witnessRegexEngine emptyCatalog emptyCatalog "x"
    (emptyCatalog, none) rfl rfl

/-- Claim C4 (code bug): when `Backend.GetCatalogBytes` fails but the
version string is valid, `BackendManager.AddBox` silently discards the fetch
error (shadowed by the version-validation assignment), proceeds with the
zero-value catalog, saves it and copies the box file, returning nil — the
claim (and the spec) says the error must be returned with no save and no
copy. -/
theorem claim4_fetch_error_swallowed :
    fetchFailBackend.getCatalogBytesResult =
      .error "GetCatalogBytes failed: connection refused" ∧
    (NewComparableVersion "1.0.0").isOk = true ∧
    BackendManager.AddBox fetchFailBackend "/tmp/testbox.box" "testbox" "desc" "1.0.0"
        "virtualbox" "sha1" "abc123" =
      ([.getCatalogBytes, .setCatalogBytes, .copyBoxFile], none) :=
  ⟨rfl, rfl, rfl⟩

/-- Counterexample to C3 as stated: with an unparseable version string,
`BackendManager.AddBox` does return the MalformedVersion error, but only
after the `GetCatalogBytes` read — the claim's "no storage access at all"
fails. -/
theorem claim3_counterexample :
    ¬ specC3Claim plainBackend "/tmp/b.box" "testbox" "d" "BADVERSION" "virtualbox" "sha1" "c" := by
  intro h
  exact absurd (h "Could not decode component BADVERSION" rfl) (by decide)

/-- Claim C3 as amended: with an unparseable version string,
`BackendManager.AddBox` fails with the MalformedVersion error after
performing exactly the `GetCatalogBytes` read — no `SetCatalogBytes` write
and no `CopyBoxFile` transfer. -/
theorem claim3_amended (bm : BackendModel)
    (localPath nameStr description versionStr providerStr checksumType checksum e : String)
    (hv : NewComparableVersion versionStr = .error e) :
    BackendManager.AddBox bm localPath nameStr description versionStr providerStr checksumType checksum =
      ([BackendOp.getCatalogBytes], some e) := by
  unfold BackendManager.AddBox BackendManager.GetCatalog
  cases hb : bm.getCatalogBytesResult <;> simp [hv]

/-- Witness for the amended C3 at a concrete backend and version string. -/
theorem claim3_witness :
    NewComparableVersion "BADVERSION" = .error "Could not decode component BADVERSION" ∧
    BackendManager.AddBox plainBackend "/tmp/b.box" "testbox" "d" "BADVERSION" "virtualbox"
        "sha1" "c" =
      ([BackendOp.getCatalogBytes], some "Could not decode component BADVERSION") :=
  ⟨rfl, claim3_amended plainBackend "/tmp/b.box" "testbox" "d" "BADVERSION" "virtualbox"
    "sha1" "c" "Could not decode component BADVERSION" rfl⟩

/-- A match-all matcher turns the provider filter into the identity, so the
per-version body keeps a version exactly when it has any provider at all. -/
theorem providerFilterFn_matchAll (v : Version) :
    providerFilterFn (fun _ => true) v = if !v.providers.isEmpty then some v else none := by
  unfold providerFilterFn
  rw [List.filter_true]
  cases v with
  | mk vstr ps => cases ps <;> simp

/-- Under a match-all matcher the provider query keeps exactly the versions
with a nonempty provider list, unchanged. -/
theorem filterMap_matchAll_eq_filter (l : List Version) :
    l.filterMap (providerFilterFn (fun _ => true)) =
      l.filter (fun v => !v.providers.isEmpty) := by
  induction l with
  | nil => rfl
  | cons v rest ih =>
    rw [List.filterMap_cons, providerFilterFn_matchAll]
    by_cases hp : v.providers.isEmpty
    · simp [hp, ih]
    · simp [hp, ih]

/-- Inverting the per-version provider-filter body: a kept version keeps the
matching providers of the original and is nonempty. -/
theorem providerFilterFn_some (m : String → Bool) (w v : Version)
    (h : providerFilterFn m w = some v) :
    v.version = w.version ∧ v.providers = w.providers.filter (fun p => m p.name) ∧
      v.providers ≠ [] := by
  unfold providerFilterFn at h
  by_cases hl : (w.providers.filter (fun p => m p.name)).length > 0
  · rw [if_pos hl] at h
    injection h with h
    rw [← h]
    exact ⟨rfl, rfl, List.ne_nil_of_length_pos hl⟩
  · rw [if_neg hl] at h
    cases h

/-- Claim C9: querying providers with the empty pattern string retains every
provider of every version (match-all — not zero matches and not an error;
versions that already had no providers are dropped, as always), and for any
pattern, a version whose provider list becomes empty after filtering is
dropped entirely from the result. -/
theorem claim9_provider_query_empty_pattern (R : RegexEngine) (c c3 : Catalog) (pat : String)
    (out : Catalog × Option String)
    (hR : R "" = some (fun _ => true))
    (hq : Catalog.QueryCatalogProviders R c3 pat = some out) :
    Catalog.QueryCatalogProviders R c "" =
      some (⟨c.name, c.description, c.versions.filter (fun v => !v.providers.isEmpty)⟩, none) ∧
    ∀ v ∈ out.1.versions, v.providers ≠ [] := by
  constructor
  · unfold Catalog.QueryCatalogProviders
    rw [hR]
    show some ((⟨c.name, c.description,
        c.versions.filterMap (providerFilterFn (fun _ => true))⟩ : Catalog),
        (none : Option String)) =
      some (⟨c.name, c.description, c.versions.filter (fun v => !v.providers.isEmpty)⟩, none)
    rw [filterMap_matchAll_eq_filter]
  · intro v hv
    unfold Catalog.QueryCatalogProviders at hq
    cases hR2 : R pat with
    | none => rw [hR2] at hq; cases hq
    | some m =>
      rw [hR2] at hq
      simp only [Option.some.injEq] at hq
      rw [← hq] at hv
      simp only at hv
      obtain ⟨w, _, hw⟩ := List.mem_filterMap.mp hv
      exact (providerFilterFn_some m w v hw).2.2

/-- Witness for C9 at the concrete engine, a catalog with an
empty-provider version, and a concrete non-empty pattern query. -/
theorem claim9_witness :
    Catalog.QueryCatalogProviders witnessRegexEngine
        ⟨"b", "d", [⟨"1.0", [⟨"virtualbox", "u", "t", "s"⟩]⟩, ⟨"2.0", []⟩]⟩ "" =
      some (⟨"b", "d",
        ([⟨"1.0", [⟨"virtualbox", "u", "t", "s"⟩]⟩, ⟨"2.0", []⟩] : List Version).filter
          (fun v => !v.providers.isEmpty)⟩, none) ∧
    ∀ v ∈ ((⟨"b", "d", [⟨"1.0", [⟨"virtualbox", "u", "t", "s"⟩]⟩]⟩ : Catalog),
        (none : Option String)).1.versions, v.providers ≠ [] :=
  claim9_provider_query_empty_pattern witnessRegexEngine
    ⟨"b", "d", [⟨"1.0", [⟨"virtualbox", "u", "t", "s"⟩]⟩, ⟨"2.0", []⟩]⟩
    ⟨"b", "d", [⟨"1.0", [⟨"virtualbox", "u", "t", "s"⟩]⟩, ⟨"2.0", []⟩]⟩ "virtualbox"
    (⟨"b", "d", [⟨"1.0", [⟨"virtualbox", "u", "t", "s"⟩]⟩]⟩, none) rfl rfl

/-- Counterexample to C2 as stated: on the empty integer vector the code
does not treat the missing components as zeros — `Compare ⟨[], ""⟩ ⟨[0], ""⟩`
is `lessThan`, while the claimed zero-padded comparison gives `equals`. -/
theorem claim2_counterexample :
    ComparableVersion.Compare ⟨[], ""⟩ ⟨[0], ""⟩ = .lessThan ∧
    specCompare ⟨[], ""⟩ ⟨[0], ""⟩ = .equals ∧
    ComparableVersion.Compare ⟨[], ""⟩ ⟨[0], ""⟩ ≠ specCompare ⟨[], ""⟩ ⟨[0], ""⟩ := by
  decide

/-- Counterexample to C5 as stated: in `"1.0-X.2"` the single dash sits in
the dot-component `"0-X"`, which is not the final dot-component, yet
parsing succeeds (with everything after the dash as the prerelease) instead
of returning a MalformedVersion error. -/
theorem claim5_counterexample :
    (splitOnChar '.' ("1.0-X.2").data).map String.mk = ["1", "0-X", "2"] ∧
    ("1.0-X.2").data.count '-' = 1 ∧
    NewComparableVersion "1.0-X.2" = .ok ⟨[1, 0], "X.2"⟩ :=
  ⟨rfl, rfl, rfl⟩

/-- Counterexample to C1 as stated: the claim's closing clause says every
range query accepts prerelease-mismatched versions, but the strict range
`"<1.0.0"` maps to `[lessThan]` only, which does not contain
`equalsPrereleaseMismatch`. -/
theorem claim1_counterexample : ¬ specC1Claim "<1.0.0" := by
  intro h
  exact absurd h.2 (by decide)

/-- Padding a cons pushes the head through. -/
theorem specPadToLength_cons (n : Nat) (a : Int) (l : List Int) :
    specPadToLength (n + 1) (a :: l) = a :: specPadToLength n l := by
  simp [specPadToLength, Nat.succ_sub_succ]

/-- Padding to the list's own length changes nothing. -/
theorem specPadToLength_self (l : List Int) : specPadToLength l.length l = l := by
  simp [specPadToLength]

/-- Lexicographic comparison strips an equal head. -/
theorem specLexCompare_cons_self (a : Int) (x y : List Int) :
    specLexCompare (a :: x) (a :: y) = specLexCompare x y := by
  simp [specLexCompare, lt_irrefl]

/-- Padding the singleton zero list coincides with padding the empty list. -/
theorem specPadToLength_zero_singleton (k : Nat) :
    specPadToLength (k + 1) [0] = specPadToLength (k + 1) ([] : List Int) := by
  simp [specPadToLength, List.replicate_succ]

/-- With enough fuel and two nonempty vectors, the embedded comparison
agrees with the spec's zero-padded lexicographic comparison. -/
theorem compareIntArrayFuel_eq_spec :
    ∀ (fuel : Nat) (va1 va2 : List Int), va1.length + va2.length ≤ fuel →
      va1 ≠ [] → va2 ≠ [] →
      compareIntArrayFuel fuel va1 va2 =
        specLexCompare (specPadToLength (max va1.length va2.length) va1)
          (specPadToLength (max va1.length va2.length) va2) := by
  intro fuel
  induction fuel with
  | zero =>
    intro va1 va2 hlen h1 h2
    cases va1 with
    | nil => exact absurd rfl h1
    | cons a restA => cases va2 with
      | nil => exact absurd rfl h2
      | cons b restB => simp at hlen
  | succ fuel ih =>
    intro va1 va2 hlen h1 h2
    cases va1 with
    | nil => exact absurd rfl h1
    | cons a restA =>
    cases va2 with
    | nil => exact absurd rfl h2
    | cons b restB =>
    have hmax : max (a :: restA).length (b :: restB).length =
        max restA.length restB.length + 1 := by
      simp [Nat.succ_max_succ]
    rw [hmax, specPadToLength_cons, specPadToLength_cons]
    rcases lt_trichotomy a b with hab | hab | hab
    · have hne : a ≠ b := ne_of_lt hab
      have hng : ¬ a > b := not_lt_of_gt hab
      simp only [compareIntArrayFuel, specLexCompare, if_neg hne, if_neg hng, if_pos hab]
    · subst hab
      simp only [compareIntArrayFuel, if_pos rfl, specLexCompare_cons_self]
      cases restA with
      | nil => cases restB with
        | nil => simp [specPadToLength, specLexCompare]
        | cons b2 restB2 =>
          have hfuel : ([0] : List Int).length + (b2 :: restB2).length ≤ fuel := by
            simp only [List.length_cons, List.length_nil, List.length_singleton] at hlen ⊢
            omega
          change compareIntArrayFuel fuel [0] (b2 :: restB2) = _
          rw [ih [0] (b2 :: restB2) hfuel (by simp) (by simp)]
          have hm : max ([] : List Int).length (b2 :: restB2).length = restB2.length + 1 := by
            simp only [List.length_cons, List.length_nil]
            omega
          have hm2 : max ([0] : List Int).length (b2 :: restB2).length = restB2.length + 1 := by
            simp only [List.length_cons, List.length_nil, List.length_singleton]
            omega
          rw [hm, hm2, specPadToLength_zero_singleton]
      | cons a2 restA2 => cases restB with
        | nil =>
          have hfuel : (a2 :: restA2).length + ([0] : List Int).length ≤ fuel := by
            simp only [List.length_cons, List.length_nil, List.length_singleton] at hlen ⊢
            omega
          change compareIntArrayFuel fuel (a2 :: restA2) [0] = _
          rw [ih (a2 :: restA2) [0] hfuel (by simp) (by simp)]
          have hm : max (a2 :: restA2).length ([] : List Int).length = restA2.length + 1 := by
            simp only [List.length_cons, List.length_nil]
            omega
          have hm2 : max (a2 :: restA2).length ([0] : List Int).length = restA2.length + 1 := by
            simp only [List.length_cons, List.length_nil, List.length_singleton]
            omega
          rw [hm, hm2, specPadToLength_zero_singleton]
        | cons b2 restB2 =>
          have hfuel : (a2 :: restA2).length + (b2 :: restB2).length ≤ fuel := by
            simp only [List.length_cons] at hlen ⊢
            omega
          change compareIntArrayFuel fuel (a2 :: restA2) (b2 :: restB2) = _
          rw [ih (a2 :: restA2) (b2 :: restB2) hfuel (by simp) (by simp)]
    · have hne : a ≠ b := ne_of_gt hab
      have hnl : ¬ a < b := not_lt_of_gt hab
      simp only [compareIntArrayFuel, specLexCompare, if_neg hne, if_neg hnl, if_pos hab,
        gt_iff_lt]

/-- The embedded `CompareIntArray` agrees with the spec's zero-padded
comparison on nonempty vectors. -/
theorem CompareIntArray_eq_spec (va1 va2 : List Int) (h1 : va1 ≠ []) (h2 : va2 ≠ []) :
    CompareIntArray va1 va2 =
      specLexCompare (specPadToLength (max va1.length va2.length) va1)
        (specPadToLength (max va1.length va2.length) va2) :=
  compareIntArrayFuel_eq_spec (va1.length + va2.length) va1 va2 le_rfl h1 h2

/-- Claim C2 as amended: for versions with nonempty integer vectors (which
is every vector `NewComparableVersion` can produce), `Compare` is the
componentwise comparison with the shorter vector's missing tail treated as
zeros; and, unconditionally, whenever the numeric comparison yields
`equals` and the prerelease strings differ, the result is
`equalsPrereleaseMismatch` and never plain `equals`. (As stated the claim
also covered empty vectors, where the code instead orders the empty vector
below every nonempty one.) -/
theorem claim2_amended (a b c d : ComparableVersion)
    (h1 : a.version ≠ []) (h2 : b.version ≠ [])
    (hcd : CompareIntArray c.version d.version = .equals)
    (hpre : c.prerelease ≠ d.prerelease) :
    a.Compare b = specCompare a b ∧ c.Compare d = .equalsPrereleaseMismatch := by
  constructor
  · unfold ComparableVersion.Compare specCompare
    rw [CompareIntArray_eq_spec a.version b.version h1 h2]
  · unfold ComparableVersion.Compare
    simp [hcd, hpre]

/-- Witness for the amended C2 at concrete versions. -/
theorem claim2_witness :
    ((⟨[1, 0], ""⟩ : ComparableVersion).version ≠ [] ∧
     (⟨[1, 0, 0], "BETA"⟩ : ComparableVersion).version ≠ [] ∧
     CompareIntArray [2, 5] [2, 5] = .equals ∧ "X" ≠ "Y") ∧
    (ComparableVersion.Compare ⟨[1, 0], ""⟩ ⟨[1, 0, 0], "BETA"⟩ =
        specCompare ⟨[1, 0], ""⟩ ⟨[1, 0, 0], "BETA"⟩ ∧
      ComparableVersion.Compare ⟨[2, 5], "X"⟩ ⟨[2, 5], "Y"⟩ = .equalsPrereleaseMismatch) :=
  ⟨⟨by decide, by decide, by decide, by decide⟩,
   claim2_amended ⟨[1, 0], ""⟩ ⟨[1, 0, 0], "BETA"⟩ ⟨[2, 5], "X"⟩ ⟨[2, 5], "Y"⟩
     (by decide) (by decide) (by decide) (by decide)⟩

/-- Claim C1 as amended: for every nonempty version-query string, the
qualifier recognized longest-first among `>=`, `<=`, `>`, `<`, `=` maps to
exactly the claimed comparator set, so an exact `=` query never accepts a
prerelease-mismatched version, the inclusive ranges and bare queries do,
and the strict ranges `>` and `<` do not. (As stated the claim also covered
the empty string — which instead short-circuits to an empty comparator
list — and asserted that the strict ranges accept prerelease mismatches,
which they do not.) -/
theorem claim1_amended (s : String) (hs : s ≠ "") : specC1AmendedClaim s := by
  have hlen : ¬ s.data.length = 0 := by
    intro h
    apply hs
    cases s with
    | mk data => cases data with
      | nil => rfl
      | cons c cs => simp at h
  unfold specC1AmendedClaim parseVersionQueryString
  rw [if_neg hlen]
  by_cases hge : charsStartWith s.data (">=").data
  · rw [if_pos hge]
    unfold parseWithQualifier
    rw [show NewVersionComparator ">=" =
      Except.ok [VersionComparator.equals, .equalsPrereleaseMismatch, .greaterThan] from rfl]
    cases hv : NewComparableVersion (String.mk (s.data.drop (">=").data.length)) with
    | error e => trivial
    | ok v =>
      refine ⟨fun c => ?_, by simp [hge]⟩
      unfold specC1ExpectedQualifiers
      rw [if_pos hge]
      cases c <;> simp
  · rw [if_neg hge]
    by_cases hle : charsStartWith s.data ("<=").data
    · rw [if_pos hle]
      unfold parseWithQualifier
      rw [show NewVersionComparator "<=" =
        Except.ok [VersionComparator.equals, .equalsPrereleaseMismatch, .lessThan] from rfl]
      cases hv : NewComparableVersion (String.mk (s.data.drop ("<=").data.length)) with
      | error e => trivial
      | ok v =>
        refine ⟨fun c => ?_, by simp [hge, hle]⟩
        unfold specC1ExpectedQualifiers
        rw [if_neg hge, if_pos hle]
        cases c <;> simp
    · rw [if_neg hle]
      by_cases hgt : charsStartWith s.data (">").data
      · rw [if_pos hgt]
        unfold parseWithQualifier
        rw [show NewVersionComparator ">" = Except.ok [VersionComparator.greaterThan] from rfl]
        cases hv : NewComparableVersion (String.mk (s.data.drop (">").data.length)) with
        | error e => trivial
        | ok v =>
          refine ⟨fun c => ?_, by simp [hge, hle, hgt]⟩
          unfold specC1ExpectedQualifiers
          rw [if_neg hge, if_neg hle, if_pos hgt]
      · rw [if_neg hgt]
        by_cases hlt : charsStartWith s.data ("<").data
        · rw [if_pos hlt]
          unfold parseWithQualifier
          rw [show NewVersionComparator "<" = Except.ok [VersionComparator.lessThan] from rfl]
          cases hv : NewComparableVersion (String.mk (s.data.drop ("<").data.length)) with
          | error e => trivial
          | ok v =>
            refine ⟨fun c => ?_, by simp [hge, hle, hgt, hlt]⟩
            unfold specC1ExpectedQualifiers
            rw [if_neg hge, if_neg hle, if_neg hgt, if_pos hlt]
        · rw [if_neg hlt]
          by_cases heq : charsStartWith s.data ("=").data
          · rw [if_pos heq]
            unfold parseWithQualifier
            rw [show NewVersionComparator "=" = Except.ok [VersionComparator.equals] from rfl]
            cases hv : NewComparableVersion (String.mk (s.data.drop ("=").data.length)) with
            | error e => trivial
            | ok v =>
              refine ⟨fun c => ?_, by simp [hge, hle, hgt, hlt, heq]⟩
              unfold specC1ExpectedQualifiers
              rw [if_neg hge, if_neg hle, if_neg hgt, if_neg hlt, if_pos heq]
          · rw [if_neg heq]
            cases hv : NewComparableVersion s with
            | error e => trivial
            | ok v =>
              refine ⟨fun c => ?_, by simp [hge, hle, hgt, hlt, heq]⟩
              unfold specC1ExpectedQualifiers
              rw [if_neg hge, if_neg hle, if_neg hgt, if_neg hlt, if_neg heq]

/-- Witness for the amended C1 at the concrete query string. -/
theorem claim1_witness : "<=2.0" ≠ "" ∧ specC1AmendedClaim "<=2.0" :=
  ⟨by decide, claim1_amended "<=2.0" (by decide)⟩

/-- A split is never the empty list. -/
theorem splitOnChar_ne_nil (sep : Char) (cs : List Char) : splitOnChar sep cs ≠ [] := by
  cases cs with
  | nil => simp [splitOnChar]
  | cons c rest =>
    unfold splitOnChar
    cases splitOnChar sep rest with
    | nil => simp
    | cons h t =>
      by_cases hc : c = sep
      · simp [hc]
      · simp [hc]

/-- Unfolding equation for `splitOnChar` on a cons cell, stated through the
head and tail of the recursive split. -/
theorem splitOnChar_cons_eq (sep c : Char) (rest h : List Char) (t : List (List Char))
    (hs : splitOnChar sep rest = h :: t) :
    splitOnChar sep (c :: rest) = if c = sep then [] :: h :: t else (c :: h) :: t := by
  unfold splitOnChar
  rw [hs]

/-- The number of split pieces is one more than the number of separators. -/
theorem splitOnChar_length_eq_count (sep : Char) (cs : List Char) :
    (splitOnChar sep cs).length = cs.count sep + 1 := by
  induction cs with
  | nil => simp [splitOnChar]
  | cons c rest ih =>
    obtain ⟨h, t, hs⟩ : ∃ h t, splitOnChar sep rest = h :: t := by
      cases hq : splitOnChar sep rest with
      | nil => exact absurd hq (splitOnChar_ne_nil sep rest)
      | cons h t => exact ⟨h, t, rfl⟩
    rw [hs] at ih
    rw [splitOnChar_cons_eq sep c rest h t hs]
    by_cases hc : c = sep
    · subst hc
      rw [if_pos rfl, List.count_cons_self]
      simp only [List.length_cons] at ih ⊢
      omega
    · rw [if_neg hc, List.count_cons_of_ne (fun hq => hc hq.symm)]
      simp only [List.length_cons] at ih ⊢
      omega

/-- Splitting a list that does not contain the separator yields the list
itself as the single piece. -/
theorem splitOnChar_of_not_mem (sep : Char) (cs : List Char) (h : sep ∉ cs) :
    splitOnChar sep cs = [cs] := by
  induction cs with
  | nil => simp [splitOnChar]
  | cons c rest ih =>
    have hc : ¬ c = sep := fun hcc => h (hcc ▸ List.mem_cons_self c rest)
    have hr : sep ∉ rest := fun hm => h (List.mem_cons_of_mem c hm)
    rw [splitOnChar_cons_eq sep c rest rest [] (ih hr), if_neg hc]

/-- Splitting around a single separator occurrence yields the two sides. -/
theorem splitOnChar_append_sep (sep : Char) (pre post : List Char)
    (hpre : sep ∉ pre) (hpost : sep ∉ post) :
    splitOnChar sep (pre ++ sep :: post) = [pre, post] := by
  induction pre with
  | nil =>
    show splitOnChar sep (sep :: post) = [[], post]
    rw [splitOnChar_cons_eq sep sep post post [] (splitOnChar_of_not_mem sep post hpost),
      if_pos rfl]
  | cons c pre2 ih =>
    have hc : ¬ c = sep := fun hcc => hpre (hcc ▸ List.mem_cons_self c pre2)
    have hp : sep ∉ pre2 := fun hm => hpre (List.mem_cons_of_mem c hm)
    show splitOnChar sep (c :: (pre2 ++ sep :: post)) = [c :: pre2, post]
    rw [splitOnChar_cons_eq sep c (pre2 ++ sep :: post) pre2 [post] (ih hp), if_neg hc]

/-- `containsChar` agrees with list membership. -/
theorem containsChar_iff_mem (target : Char) (cs : List Char) :
    containsChar target cs = true ↔ target ∈ cs := by
  constructor
  · intro h
    rcases List.any_eq_true.mp h with ⟨x, hx, hxt⟩
    exact (of_decide_eq_true hxt) ▸ hx
  · intro h
    exact List.any_eq_true.mpr ⟨target, h, decide_eq_true rfl⟩

/-- Claim C5 as amended: `NewComparableVersion` permits at most one `-`
character; when one is present the prerelease is everything after the dash
(the dash need not sit in the final dot-component — the prerelease may
itself contain dots), and every dot-component of the part before the dash
must parse as an integer; two or more dashes, or a bare prerelease with no
leading numeric component, is a MalformedVersion error. (As stated the
claim required the dash to appear in the final dot-separated component;
the code instead splits on the dash first, so an earlier-component dash
parses successfully — see the counterexample.) -/
theorem claim5_amended (s2 s3 : String) (pre post post2 : List Char)
    (h2 : 2 ≤ s2.data.count '-')
    (hpre : '-' ∉ pre) (hpost : '-' ∉ post)
    (hnd : '-' ∉ s3.data) (hpost2 : '-' ∉ post2) :
    (NewComparableVersion s2).isOk = false ∧
    NewComparableVersion (String.mk (pre ++ '-' :: post)) =
      (match parseComponentList (splitOnChar '.' pre) with
       | .error e => .error e
       | .ok vs => .ok ⟨vs, String.mk post⟩) ∧
    NewComparableVersion s3 =
      (match parseComponentList (splitOnChar '.' s3.data) with
       | .error e => .error e
       | .ok vs => .ok ⟨vs, ""⟩) ∧
    (NewComparableVersion (String.mk ('-' :: post2))).isOk = false := by
  have dashCase : ∀ (qre qost : List Char), '-' ∉ qre → '-' ∉ qost →
      NewComparableVersion (String.mk (qre ++ '-' :: qost)) =
        (match parseComponentList (splitOnChar '.' qre) with
         | .error e => .error e
         | .ok vs => .ok ⟨vs, String.mk qost⟩) := by
    intro qre qost hq1 hq2
    have hmem : '-' ∈ (String.mk (qre ++ '-' :: qost)).data :=
      List.mem_append_right qre (List.mem_cons_self _ _)
    have hc : containsChar '-' (String.mk (qre ++ '-' :: qost)).data = true :=
      (containsChar_iff_mem _ _).mpr hmem
    have hsplit : splitOnChar '-' (String.mk (qre ++ '-' :: qost)).data = [qre, qost] :=
      splitOnChar_append_sep '-' qre qost hq1 hq2
    simp [NewComparableVersion, hc, hsplit]
  refine ⟨?_, dashCase pre post hpre hpost, ?_, ?_⟩
  · have hmem : '-' ∈ s2.data := List.count_pos_iff.mp (by omega)
    have hc : containsChar '-' s2.data = true := (containsChar_iff_mem _ _).mpr hmem
    have hlong : (splitOnChar '-' s2.data).length > 2 := by
      rw [splitOnChar_length_eq_count]
      omega
    simp [NewComparableVersion, hc, hlong]
    rfl
  · have hc : ¬ (containsChar '-' s3.data = true) := by
      rw [containsChar_iff_mem]
      exact hnd
    simp [NewComparableVersion, hc]
  · have hbare := dashCase [] post2 (by simp) hpost2
    rw [List.nil_append] at hbare
    rw [hbare]
    rfl

/-- Unfolding equation: updating an empty provider list appends the new
provider. -/
theorem updateProviderList_nil (providerStr : String) (np : Provider) :
    updateProviderList providerStr np [] = [np] := rfl

/-- Unfolding equation for `updateProviderList` on a cons cell. -/
theorem updateProviderList_cons (providerStr : String) (np p : Provider) (rest : List Provider) :
    updateProviderList providerStr np (p :: rest) =
      if p.name = providerStr then
        { p with url := np.url, checksumType := np.checksumType, checksum := np.checksum } :: rest
      else p :: updateProviderList providerStr np rest := rfl

/-- Updating the provider list twice with the same data is the same as
updating it once. -/
theorem updateProviderList_idem (providerStr : String) (np : Provider)
    (hn : np.name = providerStr) (ps : List Provider) :
    updateProviderList providerStr np (updateProviderList providerStr np ps) =
      updateProviderList providerStr np ps := by
  subst hn
  induction ps with
  | nil =>
    rw [updateProviderList_nil, updateProviderList_cons]
    simp
  | cons p rest ih =>
    by_cases hp : p.name = np.name
    · rw [updateProviderList_cons, if_pos hp, updateProviderList_cons]
      simp [hp]
    · rw [updateProviderList_cons, if_neg hp, updateProviderList_cons, if_neg hp, ih]

/-- Unfolding equation: updating an empty version list appends the new
version. -/
theorem updateVersionList_nil (versionStr providerStr : String) (np : Provider) (nv : Version) :
    updateVersionList versionStr providerStr np nv [] = [nv] := rfl

/-- Unfolding equation for `updateVersionList` on a cons cell. -/
theorem updateVersionList_cons (versionStr providerStr : String) (np : Provider) (nv v : Version)
    (rest : List Version) :
    updateVersionList versionStr providerStr np nv (v :: rest) =
      if v.version = versionStr then
        { v with providers := updateProviderList providerStr np v.providers } :: rest
      else v :: updateVersionList versionStr providerStr np nv rest := rfl

/-- Updating the version list twice with the same data is the same as
updating it once. -/
theorem updateVersionList_idem (versionStr providerStr : String) (np : Provider)
    (hn : np.name = providerStr) (vs : List Version) :
    updateVersionList versionStr providerStr np ⟨versionStr, [np]⟩
        (updateVersionList versionStr providerStr np ⟨versionStr, [np]⟩ vs) =
      updateVersionList versionStr providerStr np ⟨versionStr, [np]⟩ vs := by
  subst hn
  induction vs with
  | nil =>
    rw [updateVersionList_nil, updateVersionList_cons]
    simp only [if_pos rfl]
    rw [updateProviderList_cons]
    simp
  | cons v rest ih =>
    by_cases hv : v.version = versionStr
    · rw [updateVersionList_cons, if_pos hv, updateVersionList_cons]
      simp only [if_pos hv, updateProviderList_idem np.name np rfl]
    · rw [updateVersionList_cons, if_neg hv, updateVersionList_cons, if_neg hv, ih]

/-- In a self-zip every pair has equal components. -/
theorem mem_zip_self_eq {A : Type} (l : List A) : ∀ pq ∈ l.zip l, pq.1 = pq.2 := by
  induction l with
  | nil => intro pq h; cases h
  | cons a rest ih =>
    intro pq h
    rw [List.zip_cons_cons] at h
    rcases List.mem_cons.mp h with h1 | h2
    · rw [h1]
    · exact ih pq h2

/-- `Provider.Equals` is reflexive. -/
theorem providerEquals_refl (p : Provider) : p.Equals p = true := by
  simp [Provider.Equals]

/-- `Version.Equals` is reflexive. -/
theorem versionEquals_refl (v : Version) : v.Equals v = true := by
  unfold Version.Equals
  rw [if_neg (by simp)]
  rw [List.all_eq_true]
  intro pq hpq
  rw [mem_zip_self_eq v.providers pq hpq]
  exact providerEquals_refl pq.2

/-- `Catalog.Equals` is reflexive. -/
theorem catalogEquals_refl (c : Catalog) : c.Equals c = true := by
  unfold Catalog.Equals
  rw [if_neg (by simp)]
  rw [List.all_eq_true]
  intro vw hvw
  rw [mem_zip_self_eq c.versions vw hvw]
  exact versionEquals_refl vw.2

/-- Running `Catalog.AddBox` twice with identical arguments produces the
same catalog state as running it once. -/
theorem addBox_twice_eq_once (c : Catalog)
    (catalogUri nameStr description versionStr providerStr checksumType checksum : String) :
    (((c.AddBox catalogUri nameStr description versionStr providerStr checksumType checksum).1).AddBox
        catalogUri nameStr description versionStr providerStr checksumType checksum).1 =
      (c.AddBox catalogUri nameStr description versionStr providerStr checksumType checksum).1 := by
  by_cases h1 : c.name ≠ "" ∧ nameStr ≠ "" ∧ c.name ≠ nameStr
  · simp only [Catalog.AddBox, if_pos h1]
  · cases hu : BoxUriFromCatalogUri catalogUri nameStr versionStr providerStr with
    | error e =>
      by_cases h2 : nameStr ≠ "" ∧ c.name = ""
      · simp [Catalog.AddBox, hu, h2.1, h2.2]
      · simp [Catalog.AddBox, hu, h1, h2]
    | ok boxUri =>
      by_cases h2 : nameStr ≠ "" ∧ c.name = ""
      · simp [Catalog.AddBox, hu, h2.1, h2.2, updateVersionList_idem versionStr providerStr
          ⟨providerStr, boxUri, checksumType, checksum⟩ rfl c.versions]
      · simp [Catalog.AddBox, hu, h1, h2, updateVersionList_idem versionStr providerStr
          ⟨providerStr, boxUri, checksumType, checksum⟩ rfl c.versions]

/-- When a provider of the given name is present, the update rewrites it in
place: the provider-name list is unchanged and the named provider now holds
the new Url, ChecksumType and Checksum. -/
theorem updateProviderList_overwrite (providerStr : String) (np : Provider)
    (ps : List Provider)
    (h : ps.any (fun p => p.name = providerStr) = true) :
    (updateProviderList providerStr np ps).map (fun p => p.name) =
        ps.map (fun p => p.name) ∧
    ∃ pr ∈ updateProviderList providerStr np ps,
      pr.name = providerStr ∧ pr.url = np.url ∧ pr.checksumType = np.checksumType ∧
        pr.checksum = np.checksum := by
  induction ps with
  | nil => cases h
  | cons p rest ih =>
    by_cases hp : p.name = providerStr
    · rw [updateProviderList_cons, if_pos hp]
      refine ⟨by simp [hp], ?_⟩
      refine ⟨{ p with url := np.url, checksumType := np.checksumType, checksum := np.checksum },
        List.mem_cons_self _ _, hp, rfl, rfl, rfl⟩
    · have hrest : rest.any (fun p => p.name = providerStr) = true := by
        rw [List.any_cons] at h
        simpa [hp] using h
      rw [updateProviderList_cons, if_neg hp]
      obtain ⟨hmap, pr, hmem, hpr⟩ := ih hrest
      exact ⟨by simp [hmap], pr, List.mem_cons_of_mem p hmem, hpr⟩

/-- When the first matching version entry already lists the provider, the
version-list update rewrites that provider in place: the version strings and
the per-version provider-name lists are unchanged, and the entry for
`versionStr` now carries the new provider data. -/
theorem updateVersionList_overwrite (versionStr providerStr : String) (np : Provider)
    (nv : Version) (vs : List Version)
    (h : firstMatchHasProvider versionStr providerStr vs = true) :
    (updateVersionList versionStr providerStr np nv vs).map (fun v => v.version) =
        vs.map (fun v => v.version) ∧
    (updateVersionList versionStr providerStr np nv vs).map
        (fun v => v.providers.map (fun p => p.name)) =
      vs.map (fun v => v.providers.map (fun p => p.name)) ∧
    ∃ v ∈ updateVersionList versionStr providerStr np nv vs, v.version = versionStr ∧
      ∃ pr ∈ v.providers, pr.name = providerStr ∧ pr.url = np.url ∧
        pr.checksumType = np.checksumType ∧ pr.checksum = np.checksum := by
  induction vs with
  | nil => cases h
  | cons v rest ih =>
    by_cases hv : v.version = versionStr
    · have hany : v.providers.any (fun p => p.name = providerStr) = true := by
        unfold firstMatchHasProvider at h
        rwa [if_pos hv] at h
      obtain ⟨hmap, pr, hmem, hpr⟩ := updateProviderList_overwrite providerStr np
        v.providers hany
      rw [updateVersionList_cons, if_pos hv]
      refine ⟨by simp, by simp [hmap], ?_⟩
      exact ⟨{ v with providers := updateProviderList providerStr np v.providers },
        List.mem_cons_self _ _, hv, pr, hmem, hpr⟩
    · have hrest : firstMatchHasProvider versionStr providerStr rest = true := by
        unfold firstMatchHasProvider at h
        rwa [if_neg hv] at h
      obtain ⟨hm1, hm2, w, hwmem, hw⟩ := ih hrest
      rw [updateVersionList_cons, if_neg hv]
      exact ⟨by simp [hm1], by simp [hm2], w, List.mem_cons_of_mem v hwmem, hw⟩

/-- A successful `Catalog.AddBox` whose box URI resolves to `boxUri` leaves
the catalog's version list equal to the corresponding
`updateVersionList` result. -/
theorem addBox_ok_versions (c2 cOut : Catalog)
    (catalogUri nameStr description versionStr providerStr checksumType checksum boxUri : String)
    (hu : BoxUriFromCatalogUri catalogUri nameStr versionStr providerStr = .ok boxUri)
    (hadd : c2.AddBox catalogUri nameStr description versionStr providerStr checksumType checksum
      = (cOut, none)) :
    cOut.versions = updateVersionList versionStr providerStr
      ⟨providerStr, boxUri, checksumType, checksum⟩
      ⟨versionStr, [⟨providerStr, boxUri, checksumType, checksum⟩]⟩ c2.versions := by
  by_cases h1 : c2.name ≠ "" ∧ nameStr ≠ "" ∧ c2.name ≠ nameStr
  · simp [Catalog.AddBox, h1] at hadd
  · by_cases h2 : nameStr ≠ "" ∧ c2.name = ""
    · simp [Catalog.AddBox, h1, h2, hu] at hadd
      rw [← hadd]
    · simp [Catalog.AddBox, h1, h2, hu] at hadd
      rw [← hadd]

/-- Claim C8: `Catalog.AddBox` is idempotent — running it twice with an
identical argument tuple yields a catalog `Catalog.Equals`-equal to running
it once — and adding a (version, provider) pair that the catalog's matching
version entry already lists overwrites that provider's Url, ChecksumType
and Checksum in place: the version strings and the per-version
provider-name lists are unchanged (nothing is appended) and the entry now
carries the new data. -/
theorem claim8_addBox_idempotent_overwrite (c c2 cOut : Catalog)
    (catalogUri nameStr description versionStr providerStr checksumType checksum boxUri : String)
    (hfirst : firstMatchHasProvider versionStr providerStr c2.versions = true)
    (hu : BoxUriFromCatalogUri catalogUri nameStr versionStr providerStr = .ok boxUri)
    (hadd : c2.AddBox catalogUri nameStr description versionStr providerStr checksumType checksum
      = (cOut, none)) :
    Catalog.Equals
        (((c.AddBox catalogUri nameStr description versionStr providerStr checksumType checksum).1).AddBox
          catalogUri nameStr description versionStr providerStr checksumType checksum).1
        ((c.AddBox catalogUri nameStr description versionStr providerStr checksumType checksum).1)
      = true ∧
    cOut.versions.map (fun v => v.version) = c2.versions.map (fun v => v.version) ∧
    cOut.versions.map (fun v => v.providers.map (fun p => p.name)) =
      c2.versions.map (fun v => v.providers.map (fun p => p.name)) ∧
    ∃ v ∈ cOut.versions, v.version = versionStr ∧ ∃ pr ∈ v.providers,
      pr.name = providerStr ∧ pr.url = boxUri ∧ pr.checksumType = checksumType ∧
        pr.checksum = checksum := by
  have hvers := addBox_ok_versions c2 cOut catalogUri nameStr description versionStr
    providerStr checksumType checksum boxUri hu hadd
  obtain ⟨hm1, hm2, hex⟩ := updateVersionList_overwrite versionStr providerStr
    ⟨providerStr, boxUri, checksumType, checksum⟩
    ⟨versionStr, [⟨providerStr, boxUri, checksumType, checksum⟩]⟩ c2.versions hfirst
  rw [← hvers] at hm1 hm2 hex
  refine ⟨?_, hm1, hm2, hex⟩
  rw [addBox_twice_eq_once]
  exact catalogEquals_refl _

/-- Witness for C8 at a concrete catalog that already lists the
(version, provider) pair being re-added with different data. -/
theorem claim8_witness :
    (firstMatchHasProvider "2.4.9" "PROVIDER"
        [⟨"2.4.9", [⟨"PROVIDER", "oldurl", "oldct", "oldcs"⟩]⟩] = true ∧
      BoxUriFromCatalogUri "file:///catalog/root/testbox.json" "testbox" "2.4.9" "PROVIDER" =
        .ok "file:///catalog/root/testbox/testbox_2.4.9_PROVIDER.box" ∧
      Catalog.AddBox ⟨"testbox", "olddesc", [⟨"2.4.9", [⟨"PROVIDER", "oldurl", "oldct", "oldcs"⟩]⟩]⟩
          "file:///catalog/root/testbox.json" "testbox" "newdesc" "2.4.9" "PROVIDER" "sha256"
          "0xDECAFBAD" =
        (⟨"testbox", "newdesc",
          [⟨"2.4.9", [⟨"PROVIDER", "file:///catalog/root/testbox/testbox_2.4.9_PROVIDER.box",
            "sha256", "0xDECAFBAD"⟩]⟩]⟩, none)) ∧
    (Catalog.Equals
        (((Catalog.AddBox ⟨"testbox", "olddesc", [⟨"2.4.9", [⟨"PROVIDER", "oldurl", "oldct", "oldcs"⟩]⟩]⟩
            "file:///catalog/root/testbox.json" "testbox" "newdesc" "2.4.9" "PROVIDER" "sha256"
            "0xDECAFBAD").1).AddBox
          "file:///catalog/root/testbox.json" "testbox" "newdesc" "2.4.9" "PROVIDER" "sha256"
          "0xDECAFBAD").1
        ((Catalog.AddBox ⟨"testbox", "olddesc", [⟨"2.4.9", [⟨"PROVIDER", "oldurl", "oldct", "oldcs"⟩]⟩]⟩
            "file:///catalog/root/testbox.json" "testbox" "newdesc" "2.4.9" "PROVIDER" "sha256"
            "0xDECAFBAD").1)
      = true ∧
    (⟨"testbox", "newdesc",
      [⟨"2.4.9", [⟨"PROVIDER", "file:///catalog/root/testbox/testbox_2.4.9_PROVIDER.box",
        "sha256", "0xDECAFBAD"⟩]⟩]⟩ : Catalog).versions.map (fun v => v.version) =
      ([⟨"2.4.9", [⟨"PROVIDER", "oldurl", "oldct", "oldcs"⟩]⟩] : List Version).map
        (fun v => v.version) ∧
    (⟨"testbox", "newdesc",
      [⟨"2.4.9", [⟨"PROVIDER", "file:///catalog/root/testbox/testbox_2.4.9_PROVIDER.box",
        "sha256", "0xDECAFBAD"⟩]⟩]⟩ : Catalog).versions.map
        (fun v => v.providers.map (fun p => p.name)) =
      ([⟨"2.4.9", [⟨"PROVIDER", "oldurl", "oldct", "oldcs"⟩]⟩] : List Version).map
        (fun v => v.providers.map (fun p => p.name)) ∧
    ∃ v ∈ (⟨"testbox", "newdesc",
      [⟨"2.4.9", [⟨"PROVIDER", "file:///catalog/root/testbox/testbox_2.4.9_PROVIDER.box",
        "sha256", "0xDECAFBAD"⟩]⟩]⟩ : Catalog).versions, v.version = "2.4.9" ∧
      ∃ pr ∈ v.providers, pr.name = "PROVIDER" ∧
        pr.url = "file:///catalog/root/testbox/testbox_2.4.9_PROVIDER.box" ∧
        pr.checksumType = "sha256" ∧ pr.checksum = "0xDECAFBAD") :=
  ⟨⟨by decide, by decide, by decide⟩,
   claim8_addBox_idempotent_overwrite
     ⟨"testbox", "olddesc", [⟨"2.4.9", [⟨"PROVIDER", "oldurl", "oldct", "oldcs"⟩]⟩]⟩
     ⟨"testbox", "olddesc", [⟨"2.4.9", [⟨"PROVIDER", "oldurl", "oldct", "oldcs"⟩]⟩]⟩
     ⟨"testbox", "newdesc",
       [⟨"2.4.9", [⟨"PROVIDER", "file:///catalog/root/testbox/testbox_2.4.9_PROVIDER.box",
         "sha256", "0xDECAFBAD"⟩]⟩]⟩
     "file:///catalog/root/testbox.json" "testbox" "newdesc" "2.4.9" "PROVIDER" "sha256"
     "0xDECAFBAD" "file:///catalog/root/testbox/testbox_2.4.9_PROVIDER.box"
     (by decide) (by decide) (by decide)⟩

/-- Witness for the amended C5 at concrete version strings. -/
theorem claim5_witness :
    (2 ≤ ("1-2-3").data.count '-' ∧ '-' ∉ ("4.5").data ∧ '-' ∉ ("RC.1").data ∧
      '-' ∉ ("7.0.1").data ∧ '-' ∉ ("BETA").data) ∧
    ((NewComparableVersion "1-2-3").isOk = false ∧
      NewComparableVersion (String.mk (("4.5").data ++ '-' :: ("RC.1").data)) =
        .ok ⟨[4, 5], "RC.1"⟩ ∧
      NewComparableVersion "7.0.1" = .ok ⟨[7, 0, 1], ""⟩ ∧
      (NewComparableVersion (String.mk ('-' :: ("BETA").data))).isOk = false) :=
  ⟨⟨by decide, by decide, by decide, by decide, by decide⟩,
   claim5_amended "1-2-3" "7.0.1" ("4.5").data ("RC.1").data ("BETA").data
     (by decide) (by decide) (by decide) (by decide) (by decide)⟩

/-- A successful version-filter run means every catalog version string
parses. -/
theorem filterCatalogVersions_all_ok (queryVers : ComparableVersion)
    (queryQual : List VersionComparator) :
    ∀ (l : List Version) (out : List Version),
      filterCatalogVersions queryVers queryQual l = .ok out →
      ∀ v ∈ l, (NewComparableVersion v.version).isOk = true := by
  intro l
  induction l with
  | nil => intro out h v hv; cases hv
  | cons w rest ih =>
    intro out h v hv
    unfold filterCatalogVersions at h
    cases hw : NewComparableVersion w.version with
    | error e => rw [hw] at h; cases h
    | ok cw =>
      rw [hw] at h
      cases hrest : filterCatalogVersions queryVers queryQual rest with
      | error e => rw [hrest] at h; cases h
      | ok tail =>
        rcases List.mem_cons.mp hv with h1 | h2
        · rw [h1, hw]; rfl
        · exact ih tail hrest v h2

/-- When every catalog version string parses, the version-filter run is the
plain list filter by `versionMatches`. -/
theorem filterCatalogVersions_eq_filter (queryVers : ComparableVersion)
    (queryQual : List VersionComparator) (l : List Version)
    (h : ∀ v ∈ l, (NewComparableVersion v.version).isOk = true) :
    filterCatalogVersions queryVers queryQual l =
      .ok (l.filter (fun v => versionMatches queryVers queryQual v.version)) := by
  induction l with
  | nil => rfl
  | cons w rest ih =>
    have hw := h w (List.mem_cons_self _ _)
    cases hpw : NewComparableVersion w.version with
    | error e => rw [hpw] at hw; cases hw
    | ok cw =>
      have hrest := ih (fun v hv => h v (List.mem_cons_of_mem w hv))
      have hvm : versionMatches queryVers queryQual w.version =
          comparatorListContains queryQual [cw.Compare queryVers] := by
        unfold versionMatches
        rw [hpw]
      calc filterCatalogVersions queryVers queryQual (w :: rest)
          = (match NewComparableVersion w.version with
             | .error e => .error e
             | .ok cVers =>
               match filterCatalogVersions queryVers queryQual rest with
               | .error e => .error e
               | .ok tail => .ok (if comparatorListContains queryQual
                   [cVers.Compare queryVers] then w :: tail else tail)) := rfl
        _ = .ok (if comparatorListContains queryQual [cw.Compare queryVers]
              then w :: rest.filter (fun v => versionMatches queryVers queryQual v.version)
              else rest.filter (fun v => versionMatches queryVers queryQual v.version)) := by
            rw [hpw, hrest]
        _ = .ok ((w :: rest).filter
              (fun v => versionMatches queryVers queryQual v.version)) := by
            rw [List.filter_cons, hvm]

/-- Membership in a `BoxReferenceList.Contains` test, spelled out. -/
theorem boxReferenceListContains_iff (refs : List BoxReference) (vs pn u : String) :
    boxReferenceListContains refs ⟨vs, pn, u⟩ = true ↔
      ∃ br ∈ refs, br.version = vs ∧ br.providerName = pn := by
  simp [boxReferenceListContains, BoxReference.Equals, List.any_eq_true]

/-- Membership in `Catalog.BoxReferences`, spelled out. -/
theorem mem_boxReferences (x : Catalog) (br : BoxReference) :
    br ∈ x.BoxReferences ↔
      ∃ v ∈ x.versions, ∃ pr ∈ v.providers, br = ⟨v.version, pr.name, pr.url⟩ := by
  unfold Catalog.BoxReferences
  rw [List.mem_flatMap]
  constructor
  · rintro ⟨v, hv, hbr⟩
    rw [List.mem_map] at hbr
    obtain ⟨pr, hpr, hbr⟩ := hbr
    exact ⟨v, hv, pr, hpr, hbr.symm⟩
  · rintro ⟨v, hv, pr, hpr, hbr⟩
    exact ⟨v, hv, List.mem_map.mpr ⟨pr, hpr, hbr.symm⟩⟩

/-- Inverting the per-version body of `DeleteReferences`: a surviving
version keeps its original version string, keeps exactly the providers whose
key is not referenced, and is nonempty. -/
theorem deleteReferencesFn_some (refs : List BoxReference) (w v : Version)
    (h : deleteReferencesFn refs w = some v) :
    v.version = w.version ∧
    v.providers = w.providers.filter
      (fun p => !(boxReferenceListContains refs ⟨w.version, p.name, ""⟩)) ∧
    v.providers ≠ [] := by
  unfold deleteReferencesFn at h
  by_cases hl : (w.providers.filter
      (fun p => !(boxReferenceListContains refs ⟨w.version, p.name, ""⟩))).length > 0
  · rw [if_pos hl] at h
    injection h with h
    rw [← h]
    exact ⟨rfl, rfl, List.ne_nil_of_length_pos hl⟩
  · rw [if_neg hl] at h
    cases h

/-- Core of C7: after deleting exactly the box references matched by a
query, no surviving provider can match that query again — the provider
filter returns `none` on every surviving version that passes the version
filter. -/
theorem deleted_matches_gone (m : String → Bool) (vKeep : String → Bool) (c q : Catalog)
    (hq : q.versions =
      (c.versions.filter (fun v => vKeep v.version)).filterMap (providerFilterFn m)) :
    ∀ v ∈ (c.DeleteReferences q.BoxReferences).versions, vKeep v.version = true →
      providerFilterFn m v = none := by
  intro v hv hkeep
  obtain ⟨w, hwmem, hw⟩ := List.mem_filterMap.mp hv
  obtain ⟨hver, hprov, _⟩ := deleteReferencesFn_some _ w v hw
  have hnone : v.providers.filter (fun p => m p.name) = [] := by
    rw [List.filter_eq_nil_iff]
    intro pr hpr hm
    rw [hprov] at hpr
    obtain ⟨hprw, hnotref⟩ := List.mem_filter.mp hpr
    have hqver : (⟨w.version, w.providers.filter (fun p => m p.name)⟩ : Version) ∈ q.versions := by
      rw [hq]
      apply List.mem_filterMap.mpr
      refine ⟨w, List.mem_filter.mpr ⟨hwmem, ?_⟩, ?_⟩
      · rw [← hver]
        exact hkeep
      · unfold providerFilterFn
        rw [if_pos]
        exact List.length_pos_of_mem (List.mem_filter.mpr ⟨hprw, hm⟩)
    have hrefmem : (⟨w.version, pr.name, pr.url⟩ : BoxReference) ∈ q.BoxReferences := by
      rw [mem_boxReferences]
      exact ⟨⟨w.version, w.providers.filter (fun p => m p.name)⟩, hqver, pr,
        List.mem_filter.mpr ⟨hprw, hm⟩, rfl⟩
    have hcontains : boxReferenceListContains q.BoxReferences ⟨w.version, pr.name, ""⟩ = true := by
      rw [boxReferenceListContains_iff]
      exact ⟨⟨w.version, pr.name, pr.url⟩, hrefmem, rfl, rfl⟩
    rw [hcontains] at hnotref
    cases hnotref
  unfold providerFilterFn
  rw [hnone]
  rfl

/-- Claim C7: deleting by query and then re-querying is empty — if
`QueryCatalog` succeeds on a catalog, removing the `BoxReferences` of its
result via `DeleteReferences` produces a catalog on which the same query
returns (without error or panic) a catalog with an empty version list. -/
theorem claim7_delete_requery_empty (R : RegexEngine) (c : Catalog)
    (p : CatalogQueryParams) (q : Catalog)
    (h : c.QueryCatalog R p = some (q, none)) :
    ∃ r, (c.DeleteReferences q.BoxReferences).QueryCatalog R p = some (r, none) ∧
      r.versions = [] := by
  obtain ⟨vres, hv, m, hR, hqv⟩ :
      ∃ vres, c.QueryCatalogVersions p.version = .ok vres ∧
        ∃ m, R p.provider = some m ∧
          q.versions = vres.versions.filterMap (providerFilterFn m) := by
    unfold Catalog.QueryCatalog at h
    cases hx : c.QueryCatalogVersions p.version with
    | error e => rw [hx] at h; simp at h
    | ok vres =>
      rw [hx] at h
      unfold Catalog.QueryCatalogProviders at h
      cases hR2 : R p.provider with
      | none => rw [hR2] at h; cases h
      | some m =>
        rw [hR2] at h
        simp only [Option.some.injEq, Prod.mk.injEq] at h
        refine ⟨vres, rfl, m, rfl, ?_⟩
        rw [← h.1]
  obtain ⟨vKeep, hkeepAll, hd1⟩ :
      ∃ vKeep : String → Bool,
        vres.versions = c.versions.filter (fun v => vKeep v.version) ∧
        (c.DeleteReferences q.BoxReferences).QueryCatalogVersions p.version =
          .ok ⟨(c.DeleteReferences q.BoxReferences).name,
            (c.DeleteReferences q.BoxReferences).description,
            (c.DeleteReferences q.BoxReferences).versions.filter
              (fun v => vKeep v.version)⟩ := by
    unfold Catalog.QueryCatalogVersions at hv
    cases hparse : parseVersionQueryString p.version with
    | error e =>
      rw [hparse] at hv
      exact absurd hv (by simp)
    | ok qpair =>
      obtain ⟨qv, qq⟩ := qpair
      rw [hparse] at hv
      replace hv : (if qv.version.length = 0 then Except.ok c
          else match filterCatalogVersions qv qq c.versions with
            | .error e => .error e
            | .ok vs => .ok (⟨c.name, c.description, vs⟩ : Catalog)) = .ok vres := hv
      by_cases hempty : qv.version.length = 0
      · rw [if_pos hempty] at hv
        have hvc : c = vres := by injection hv
        refine ⟨fun _ => true, ?_, ?_⟩
        · rw [← hvc]
          simp
        · have hdq : (c.DeleteReferences q.BoxReferences).QueryCatalogVersions p.version =
              .ok (c.DeleteReferences q.BoxReferences) := by
            unfold Catalog.QueryCatalogVersions
            rw [hparse]
            show (if qv.version.length = 0
                then Except.ok (c.DeleteReferences q.BoxReferences)
                else match filterCatalogVersions qv qq
                    (c.DeleteReferences q.BoxReferences).versions with
                  | .error e => .error e
                  | .ok vs => .ok (⟨(c.DeleteReferences q.BoxReferences).name,
                      (c.DeleteReferences q.BoxReferences).description, vs⟩ : Catalog)) =
              Except.ok (c.DeleteReferences q.BoxReferences)
            rw [if_pos hempty]
          rw [hdq]
          simp
      · rw [if_neg hempty] at hv
        cases hfil : filterCatalogVersions qv qq c.versions with
        | error e => rw [hfil] at hv; cases hv
        | ok vs0 =>
          rw [hfil] at hv
          injection hv with hv
          have hallc := filterCatalogVersions_all_ok qv qq c.versions vs0 hfil
          have hvs0 : vs0 = c.versions.filter (fun v => versionMatches qv qq v.version) := by
            have heq := filterCatalogVersions_eq_filter qv qq c.versions hallc
            rw [hfil] at heq
            injection heq
          have halld : ∀ v ∈ (c.DeleteReferences q.BoxReferences).versions,
              (NewComparableVersion v.version).isOk = true := by
            intro v hvd
            obtain ⟨w, hwmem, hw⟩ := List.mem_filterMap.mp hvd
            obtain ⟨hver, _, _⟩ := deleteReferencesFn_some _ w v hw
            rw [hver]
            exact hallc w hwmem
          refine ⟨versionMatches qv qq, ?_, ?_⟩
          · rw [← hv, ← hvs0]
          · have hdq : filterCatalogVersions qv qq
                (c.DeleteReferences q.BoxReferences).versions =
                .ok ((c.DeleteReferences q.BoxReferences).versions.filter
                  (fun v => versionMatches qv qq v.version)) :=
              filterCatalogVersions_eq_filter qv qq
                (c.DeleteReferences q.BoxReferences).versions halld
            unfold Catalog.QueryCatalogVersions
            rw [hparse]
            show (if qv.version.length = 0
                then Except.ok (c.DeleteReferences q.BoxReferences)
                else match filterCatalogVersions qv qq
                    (c.DeleteReferences q.BoxReferences).versions with
                  | .error e => .error e
                  | .ok vs => .ok (⟨(c.DeleteReferences q.BoxReferences).name,
                      (c.DeleteReferences q.BoxReferences).description, vs⟩ : Catalog)) = _
            rw [if_neg hempty, hdq]
  have hgone : ∀ v ∈ (c.DeleteReferences q.BoxReferences).versions.filter
      (fun v => vKeep v.version), providerFilterFn m v = none := by
    intro v hv2
    obtain ⟨hvd, hkeep⟩ := List.mem_filter.mp hv2
    refine deleted_matches_gone m vKeep c q ?_ v hvd hkeep
    rw [hqv, hkeepAll]
  have hd2 : Catalog.QueryCatalogProviders R
      (⟨(c.DeleteReferences q.BoxReferences).name,
        (c.DeleteReferences q.BoxReferences).description,
        (c.DeleteReferences q.BoxReferences).versions.filter
          (fun v => vKeep v.version)⟩ : Catalog) p.provider =
      some (⟨(c.DeleteReferences q.BoxReferences).name,
        (c.DeleteReferences q.BoxReferences).description, []⟩, none) := by
    unfold Catalog.QueryCatalogProviders
    rw [hR]
    show some ((⟨(c.DeleteReferences q.BoxReferences).name,
        (c.DeleteReferences q.BoxReferences).description,
        ((c.DeleteReferences q.BoxReferences).versions.filter
          (fun v => vKeep v.version)).filterMap (providerFilterFn m)⟩ : Catalog),
        (none : Option String)) = _
    rw [List.filterMap_eq_nil_iff.mpr hgone]
  refine ⟨⟨(c.DeleteReferences q.BoxReferences).name,
    (c.DeleteReferences q.BoxReferences).description, []⟩, ?_, rfl⟩
  unfold Catalog.QueryCatalog
  rw [hd1]
  show (match Catalog.QueryCatalogProviders R
      (⟨(c.DeleteReferences q.BoxReferences).name,
        (c.DeleteReferences q.BoxReferences).description,
        (c.DeleteReferences q.BoxReferences).versions.filter
          (fun v => vKeep v.version)⟩ : Catalog) p.provider with
    | none => none
    | some (pResult, _) =>
      some ((⟨(c.DeleteReferences q.BoxReferences).name,
        (c.DeleteReferences q.BoxReferences).description, pResult.versions⟩ : Catalog),
        (none : Option String))) =
    some (⟨(c.DeleteReferences q.BoxReferences).name,
      (c.DeleteReferences q.BoxReferences).description, []⟩, none)
  rw [hd2]

/-- Witness for C7 at a concrete catalog, query, and regex engine. -/
theorem claim7_witness :
    Catalog.QueryCatalog witnessRegexEngine
        ⟨"wbox", "wd",
          [⟨"0.5.0", [⟨"virtualbox", "u1", "sha1", "s1"⟩, ⟨"vmware", "u2", "sha1", "s2"⟩]⟩,
           ⟨"1.0.0", [⟨"virtualbox", "u3", "sha1", "s3"⟩]⟩]⟩
        ⟨"<=0.5.0", "virtualbox"⟩ =
      some (⟨"wbox", "wd", [⟨"0.5.0", [⟨"virtualbox", "u1", "sha1", "s1"⟩]⟩]⟩, none) ∧
    ∃ r, Catalog.QueryCatalog witnessRegexEngine
        (Catalog.DeleteReferences
          ⟨"wbox", "wd",
            [⟨"0.5.0", [⟨"virtualbox", "u1", "sha1", "s1"⟩, ⟨"vmware", "u2", "sha1", "s2"⟩]⟩,
             ⟨"1.0.0", [⟨"virtualbox", "u3", "sha1", "s3"⟩]⟩]⟩
          (Catalog.BoxReferences
            ⟨"wbox", "wd", [⟨"0.5.0", [⟨"virtualbox", "u1", "sha1", "s1"⟩]⟩]⟩))
        ⟨"<=0.5.0", "virtualbox"⟩ = some (r, none) ∧ r.versions = [] :=
  ⟨by decide,
   claim7_delete_requery_empty witnessRegexEngine
     ⟨"wbox", "wd",
       [⟨"0.5.0", [⟨"virtualbox", "u1", "sha1", "s1"⟩, ⟨"vmware", "u2", "sha1", "s2"⟩]⟩,
        ⟨"1.0.0", [⟨"virtualbox", "u3", "sha1", "s3"⟩]⟩]⟩
     ⟨"<=0.5.0", "virtualbox"⟩
     ⟨"wbox", "wd", [⟨"0.5.0", [⟨"virtualbox", "u1", "sha1", "s1"⟩]⟩]⟩
     (by decide)⟩

end Caryatid
